import Mathlib

/-!
Shallow embedding of the canonical line-transformation pipeline of `rn2md`
(`src/rn2md/formatters.py`).  Lines are modelled as `List Char`; Python slices
`s[i:j]`, `s[:i]`, `s[i:]` become `(s.take j).drop i`, `s.take i`, `s.drop i`.
The specification's data model fixes a Line to be newline-free, so the regex
dot is modelled as matching any character.  Python's `\w` is modelled for the
ASCII range, and `\s` as the six ASCII whitespace characters.
-/

namespace Rn2md

/-- Python `\s` on ASCII text: space, tab, newline, carriage return,
vertical tab, form feed. -/
def isPyWS (c : Char) : Bool :=
  c == ' ' || c == '\t' || c == '\n' || c == '\r' ||
  c == Char.ofNat 11 || c == Char.ofNat 12

/-- Python `\w` on ASCII text: letters, digits, underscore. -/
def isWordChar (c : Char) : Bool := c.isAlphanum || c == '_'

/-- The backtick character (code point 96). -/
def backquote : Char := Char.ofNat 96

/-- Python slice `s[i:j]` for non-negative bounds. -/
def pyExtract (s : List Char) (i j : ℕ) : List Char := (s.take j).drop i

/-- `_spans_intersect` of formatters.py: each 2-tuple is passed through
`sorted`, then `hi1 >= lo2 and hi2 >= lo1` is tested (closed-inclusive
intersection of the two intervals). -/
def spans_intersect (sp1 sp2 : ℕ × ℕ) : Bool :=
  let lo1 := min sp1.1 sp1.2
  let hi1 := max sp1.1 sp1.2
  let lo2 := min sp2.1 sp2.2
  let hi2 := max sp2.1 sp2.2
  decide (lo2 ≤ hi1 ∧ lo1 ≤ hi2)

/-- `re.finditer` for a two-character literal pattern `a ++ b` (the delimiter
patterns `//`, `--` and the double backtick are all two literal characters):
scan left to right, matches do not overlap, after a match the scan resumes
right after it.  Returns the list of half-open spans. -/
def findLit2Aux (a b : Char) : List Char → ℕ → List (ℕ × ℕ)
  | x :: y :: rest, i =>
    if x = a ∧ y = b then (i, i + 2) :: findLit2Aux a b rest (i + 2)
    else findLit2Aux a b (y :: rest) (i + 1)
  | _, _ => []

def findLit2 (a b : Char) (s : List Char) : List (ℕ × ℕ) := findLit2Aux a b s 0

/-- Match result for the link pattern `\[([^\]]*?) ""(.*?)""\]`:
start offset, span of group 1 (the text), span of group 2 (the url),
and the end offset of the whole match. -/
structure LinkMatch where
  lo : ℕ
  g1 : ℕ × ℕ
  g2 : ℕ × ℕ
  hi : ℕ
deriving Repr, DecidableEq

/-- Scan for the shortest prefix made of non-`]` characters that is followed
by the three characters `space, quote, quote`; returns its length.  This is
the lazy group `([^\]]*?)` of the link pattern followed by ` ""`: the lazy
group expands one non-`]` character at a time, checking the tail pattern at
each step, so the first position where ` ""` fits wins. -/
def linkG1Scan : List Char → Option ℕ
  | [] => none
  | x :: xs =>
    if [' ', '"', '"'].isPrefixOf (x :: xs) then some 0
    else if x = ']' then none
    else (linkG1Scan xs).map (· + 1)

/-- Offset of the first occurrence of the literal pattern `pat` (used for the
closing `""]` of the link/image patterns: the lazy `(.*?)` expands until the
first position where the closing literal fits). -/
def findSubstr (pat : List Char) : List Char → Option ℕ
  | [] => if pat.isPrefixOf ([] : List Char) then some 0 else none
  | x :: xs => if pat.isPrefixOf (x :: xs) then some 0 else (findSubstr pat xs).map (· + 1)

/-- Try to match the link pattern at the head of the list.  On success,
returns `(j, k)` where `j` is the length of group 1 and `k` the length of
group 2; the whole match then has length `j + k + 7`
(`[` + group1 + ` ""` + group2 + `""]`). -/
def linkMatchHere : List Char → Option (ℕ × ℕ)
  | '[' :: rest =>
    match linkG1Scan rest with
    | none => none
    | some j =>
      match findSubstr ['"', '"', ']'] (rest.drop (j + 3)) with
      | none => none
      | some k => some (j, k)
  | _ => none

/-- `re.finditer` of the link pattern: leftmost matches, scan resumes after
each match.  `fuel` is an upper bound on the number of scan steps; each step
either consumes at least one character of the remaining list or fails at the
head and moves one character, so `s.length` steps always suffice (the wrapper
passes exactly that), keeping the recursion structural. -/
def findLinksAux (a : Char) : ℕ → List Char → ℕ → List LinkMatch
  | 0, _, _ => []
  | _ + 1, [], _ => []
  | fuel + 1, x :: xs, i =>
    match linkMatchHere (x :: xs) with
    | some (j, k) =>
      ⟨i, (i + 1, i + 1 + j), (i + j + 4, i + j + 4 + k), i + j + k + 7⟩ ::
        findLinksAux a fuel ((x :: xs).drop (j + k + 7)) (i + j + k + 7)
    | none => findLinksAux a fuel xs (i + 1)

def findLinks (s : List Char) : List LinkMatch := findLinksAux '[' s.length s 0

/-- `_not_in_link` of formatters.py: re-scan the current string for link
matches and require that the candidate span intersects none of their
group-2 (url) spans. -/
def not_in_link (s : List Char) (sp : ℕ × ℕ) : Bool :=
  !(findLinks s).any (fun m => spans_intersect sp m.g2)

/-- `re.finditer(r'`.*?`')`: the lazy dot-star pairs each opening backtick
with the nearest following backtick, and the scan resumes after the closing
one, so the spans pair up the backticks consecutively; a trailing unmatched
backtick yields no span. -/
def backtickSpansAux : List Char → ℕ → Option ℕ → List (ℕ × ℕ)
  | [], _, _ => []
  | x :: xs, i, none =>
    if x = backquote then backtickSpansAux xs (i + 1) (some i)
    else backtickSpansAux xs (i + 1) none
  | x :: xs, i, some o =>
    if x = backquote then (o, i + 1) :: backtickSpansAux xs (i + 1) none
    else backtickSpansAux xs (i + 1) (some o)

def findBackticks (s : List Char) : List (ℕ × ℕ) := backtickSpansAux s 0 none

/-- `_not_in_backticks` of formatters.py. -/
def not_in_backticks (s : List Char) (sp : ℕ × ℕ) : Bool :=
  !(findBackticks s).any (fun m => spans_intersect sp m)

/-- The default predicate set of `_filter_matches`. -/
def defaultPreds : List (List Char → ℕ × ℕ → Bool) := [not_in_link, not_in_backticks]

/-- `_filter_matches`: keep the matches passing every predicate (each
predicate re-scans the same string, hence the extra `s` argument standing
for the Python match object's `.string`). -/
def filter_matches (preds : List (List Char → ℕ × ℕ → Bool)) (s : List Char)
    (ms : List (ℕ × ℕ)) : List (ℕ × ℕ) :=
  ms.filter (fun m => preds.all (fun p => p s m))

/-- `zip(delims, delims)` over a single iterator: consecutive pairing
1st-with-2nd, 3rd-with-4th, ...; an odd trailing element is dropped. -/
def pairUp {α : Type} : List α → List (α × α)
  | a :: b :: t => (a, b) :: pairUp t
  | _ => []

/-- One iteration of the reversed substitution loop of
`_sub_balanced_delims`: `string = start + sub + data + sub + end` with
`start = string[:lo1]`, `data = string[hi1:lo2]`, `end = string[hi2:]`. -/
def applyPairRev (sub : List Char) (acc : List Char) (p : (ℕ × ℕ) × (ℕ × ℕ)) : List Char :=
  acc.take p.1.1 ++ sub ++ pyExtract acc p.1.2 p.2.1 ++ sub ++ acc.drop p.2.2

/-- `_sub_balanced_delims` for a two-character delimiter: filter the matches,
pair them consecutively, and substitute the pairs in reverse order so the
earlier match offsets stay valid.  All call sites pass a single-character
`sub`, so the unpacking `start_sub, end_sub = sub` raises `ValueError` and
both ends use the same `sub`. -/
def sub_balanced_delims (a b : Char) (sub : List Char)
    (preds : List (List Char → ℕ × ℕ → Bool)) (s : List Char) : List Char :=
  ((pairUp (filter_matches preds s (findLit2 a b s))).reverse).foldl (applyPairRev sub) s

/-- Matches of `(?<=\w)_(?=\w)`: each underscore with a word character
immediately before and after it; the lookarounds are zero-width, so
consecutive underscores all match. -/
def innerUnderscoresAux : List Char → ℕ → List (ℕ × ℕ)
  | a :: b :: c :: rest, i =>
    if isWordChar a && b == '_' && isWordChar c then
      (i + 1, i + 2) :: innerUnderscoresAux (b :: c :: rest) (i + 1)
    else innerUnderscoresAux (b :: c :: rest) (i + 1)
  | _, _ => []

def innerUnderscores (s : List Char) : List (ℕ × ℕ) := innerUnderscoresAux s 0

/-- `format_inner_underscores`: escape each surviving inner underscore,
rightmost first (`line = line[:start] + '\\_' + line[end:]`). -/
def format_inner_underscores (s : List Char) : List Char :=
  ((filter_matches defaultPreds s (innerUnderscores s)).reverse).foldl
    (fun acc m => acc.take m.1 ++ '\\' :: '_' :: acc.drop m.2) s

/-- `re.sub` of the link pattern with template `[\1](\2)`: replace the
non-overlapping leftmost matches left to right, keeping the text between
matches. -/
def subLinksVia (s : List Char) : List LinkMatch → ℕ → List Char
  | [], pos => s.drop pos
  | m :: rest, pos =>
    pyExtract s pos m.lo ++ '[' :: (pyExtract s m.g1.1 m.g1.2 ++
      ']' :: '(' :: (pyExtract s m.g2.1 m.g2.2 ++ ')' :: subLinksVia s rest m.hi))

/-- `format_links`. -/
def format_links (s : List Char) : List Char := subLinksVia s (findLinks s) 0

/-- Try to match the image pattern `\[""(.*?)""\]` at the head of the list;
returns the length of group 1.  The whole match has length `k + 6`. -/
def imgMatchHere : List Char → Option ℕ
  | '[' :: '"' :: '"' :: rest => findSubstr ['"', '"', ']'] rest
  | _ => none

/-- `re.finditer` of the image pattern; same fuel convention as
`findLinksAux`.  Each element is `(lo, group-1 span, hi)`. -/
def findImagesAux : ℕ → List Char → ℕ → List (ℕ × (ℕ × ℕ) × ℕ)
  | 0, _, _ => []
  | _ + 1, [], _ => []
  | fuel + 1, x :: xs, i =>
    match imgMatchHere (x :: xs) with
    | some k =>
      (i, (i + 3, i + 3 + k), i + k + 6) ::
        findImagesAux fuel ((x :: xs).drop (k + 6)) (i + k + 6)
    | none => findImagesAux fuel xs (i + 1)

def findImages (s : List Char) : List (ℕ × (ℕ × ℕ) × ℕ) := findImagesAux s.length s 0

/-- `re.sub` of the image pattern with template `![](\1)`. -/
def subImagesVia (s : List Char) : List (ℕ × (ℕ × ℕ) × ℕ) → ℕ → List Char
  | [], pos => s.drop pos
  | (lo, g, hi) :: rest, pos =>
    pyExtract s pos lo ++ '!' :: '[' :: ']' :: '(' :: (pyExtract s g.1 g.2 ++
      ')' :: subImagesVia s rest hi)

/-- `format_images`. -/
def format_images (s : List Char) : List Char := subImagesVia s (findImages s) 0

/-- Python `str.lstrip()`. -/
def pyLstrip (s : List Char) : List Char := s.dropWhile isPyWS

/-- The guard of `format_headers`: `^=+` matched and is not the whole line,
and `=+$` matched with the same run of `=` as the leading one.  (On a
newline-free line `=+$` is the maximal trailing run of `=`.) -/
def header_guard (s : List Char) : Bool :=
  let lead := s.takeWhile (· == '=')
  let trail := (s.reverse.takeWhile (· == '=')).reverse
  !lead.isEmpty && decide (lead ≠ s) && !trail.isEmpty && decide (trail = lead)

/-- `format_headers`: on a guarded line of leading/trailing `=`-runs of equal
length `level`, produce `'#' * (padding + level) + ' ' + interior.lstrip()`
where `interior = line[level:-level]`.  Python's `'#' * n` is empty for
`n <= 0`, which is `Int.toNat`. -/
def format_headers (padding : ℤ) (s : List Char) : List Char :=
  let lead := s.takeWhile (· == '=')
  if lead.isEmpty || decide (lead = s) then s
  else
    let trail := (s.reverse.takeWhile (· == '=')).reverse
    if trail.isEmpty || decide (trail ≠ lead) then s
    else
      let level := lead.length
      List.replicate (padding + (level : ℤ)).toNat '#' ++
        ' ' :: pyLstrip (pyExtract s level (s.length - level))

/-- `format_italic_text`: `_sub_balanced_delims('//', '_', line)`. -/
def format_italic_text (s : List Char) : List Char :=
  sub_balanced_delims '/' '/' ['_'] defaultPreds s

/-- `format_strikethrough_text`: skipped when the line equals `'-' * len(line)`
(covers the empty line), otherwise `_sub_balanced_delims('--', '~', line)`. -/
def format_strikethrough_text (s : List Char) : List Char :=
  if s = List.replicate s.length '-' then s
  else sub_balanced_delims '-' '-' ['~'] defaultPreds s

/-- `format_code_blocks`: `_sub_balanced_delims('``', '`', line,
preds=[_not_in_link])`. -/
def format_code_blocks (s : List Char) : List Char :=
  sub_balanced_delims backquote backquote [backquote] [not_in_link] s

/-- The private state of `format_lists`: the `defaultlist(lambda: 1)` of
per-column counters and the count of blank lines. -/
structure ListState where
  hist : List ℕ
  empties : ℕ
deriving Repr, DecidableEq

/-- `line.strip()` is falsy exactly when every character is whitespace. -/
def isBlank (s : List Char) : Bool := s.all isPyWS

/-- `re.match(r'^\s*([-|\+])\s', line)`: greedy leading whitespace, then one
marker character out of the class `[-|\+]` (that is `-`, `|` or `+`), then
one required whitespace character.  Returns `match.start(1)` and the marker. -/
def listItemIndex (s : List Char) : Option (ℕ × Char) :=
  let i := (s.takeWhile isPyWS).length
  match s.drop i with
  | m :: nxt :: _ =>
    if (m == '-' || m == '|' || m == '+') && isPyWS nxt then some (i, m) else none
  | _ => none

/-- One step of the `format_lists` coroutine.  On a list-item match at column
`i`: a `-` marker passes through; any other marker is rewritten to the
current counter value (a `defaultlist` read at `i` first pads the list with
the default `1` up to length `i + 1`), the counter is incremented, and the
entries above column `i` are deleted.  Otherwise a non-blank line clears the
counters and resets the blank-line count, and a blank line increments the
blank-line count, clearing the counters once it reaches 2. -/
def format_lists (st : ListState) (s : List Char) : ListState × List Char :=
  match listItemIndex s with
  | some (i, m) =>
    if m = '-' then
      ({ hist := st.hist.take (i + 1), empties := st.empties }, s)
    else
      let hist1 := st.hist ++ List.replicate (i + 1 - st.hist.length) 1
      let v := hist1.getD i 1
      let s' := s.take i ++ ((toString v).data ++ '.' :: s.drop (i + 1))
      let hist2 := hist1.set i (v + 1)
      ({ hist := hist2.take (i + 1), empties := st.empties }, s')
  | none =>
    if !isBlank s then ({ hist := [], empties := 0 }, s)
    else
      let e := st.empties + 1
      ({ hist := if 2 ≤ e then [] else st.hist, empties := e }, s)

/-- One line through `format_rednotebook_as_markdown`'s ordered formatter
chain: inner underscores, links, images, headers, code blocks, italic,
strikethrough, lists. -/
def pipeline_step (padding : ℤ) (st : ListState) (l : List Char) : ListState × List Char :=
  format_lists st
    (format_strikethrough_text
      (format_italic_text
        (format_code_blocks
          (format_headers padding
            (format_images
              (format_links
                (format_inner_underscores l)))))))

/-- Feed a sequence of lines through the pipeline, threading the list
stage's state. -/
def run_pipeline (padding : ℤ) : ListState → List (List Char) → List (List Char)
  | _, [] => []
  | st, l :: ls =>
    let r := pipeline_step padding st l
    r.2 :: run_pipeline padding r.1 ls

/-- `format_rednotebook_as_markdown`: a fresh pipeline instance (fresh stage
state) fed the given lines in order. -/
def format_rednotebook_as_markdown (padding : ℤ) (lines : List (List Char)) :
    List (List Char) :=
  run_pipeline padding ⟨[], 0⟩ lines

/-- A single line through a fresh pipeline. -/
def pipeline_line (l : List Char) : List Char := (pipeline_step 0 ⟨[], 0⟩ l).2

/-- Feed a sequence of lines through the list stage alone, threading its
state. -/
def run_list_stage : ListState → List (List Char) → List (List Char)
  | _, [] => []
  | st, l :: ls =>
    let r := format_lists st l
    r.2 :: run_list_stage r.1 ls

/-- A fresh `format_lists` coroutine fed the given lines in order. -/
def list_stage (lines : List (List Char)) : List (List Char) :=
  run_list_stage ⟨[], 0⟩ lines

/-- Forward reading of the balanced-delimiter substitution, following the
specification's words: walk the surviving matches in order, pair the 1st
with the 2nd, the 3rd with the 4th, and so on, replace each paired delimiter
by `sub` keeping the interior verbatim, and leave everything from an
unpaired trailing match on untouched. -/
def balanced_pairs_spec (sub : List Char) (s : List Char) :
    List (ℕ × ℕ) → ℕ → List Char
  | m1 :: m2 :: rest, pos =>
    pyExtract s pos m1.1 ++ sub ++ (pyExtract s m1.2 m2.1 ++ sub ++
      balanced_pairs_spec sub s rest m2.2)
  | _, pos => s.drop pos

/-- Specification-side balanced-delimiter substituter (to be compared with
`sub_balanced_delims`, which substitutes in reverse order). -/
def balanced_sub_spec (a b : Char) (sub : List Char)
    (preds : List (List Char → ℕ × ℕ → Bool)) (s : List Char) : List Char :=
  balanced_pairs_spec sub s (filter_matches preds s (findLit2 a b s)) 0

/-- The interior of a header line: `line[level:-level]` for
`level = len(re.search(r'^=+', line).group())`. -/
def header_interior (s : List Char) : List Char :=
  pyExtract s ((s.takeWhile (· == '=')).length)
    (s.length - (s.takeWhile (· == '=')).length)

/-- A line with none of the RedNotebook tokens the stages react to: no
surviving inner-underscore match, no link or image match, a failing header
guard, no double backtick, no `//`, no `--`, and not a list item unless its
marker is `-`.  On such a line every stage is the identity. -/
def md_stable (l : List Char) : Bool :=
  (filter_matches defaultPreds l (innerUnderscores l)).isEmpty &&
  (findLinks l).isEmpty &&
  (findImages l).isEmpty &&
  !header_guard l &&
  (findLit2 backquote backquote l).isEmpty &&
  (findLit2 '/' '/' l).isEmpty &&
  (findLit2 '-' '-' l).isEmpty &&
  (match listItemIndex l with
   | some (_, m) => m == '-'
   | none => true)

/-! ### Concrete evaluations settling the claims about specific inputs -/

/-- Claim C1, counterexample: in the line `[x ""http://a--b--c""]` the two
`--` occurrences (spans `(13,15)` and `(16,18)`) lie strictly inside the
link's url span `(5,19)`, yet the full pipeline substitutes them: the
strikethrough stage runs after the link has been rewritten to Markdown form,
at which point the url is no longer recognised as a protected span, and the
output is `[x](http://a~b~c)`. -/
theorem C1_counterexample :
    (findLinks ("[x \"\"http://a--b--c\"\"]".data)).map LinkMatch.g2 = [(5, 19)] ∧
    findLit2 '-' '-' ("[x \"\"http://a--b--c\"\"]".data) = [(13, 15), (16, 18)] ∧
    pipeline_line ("[x \"\"http://a--b--c\"\"]".data) = ("[x](http://a~b~c)".data) :=
  ⟨by decide, by decide, by decide⟩

/-- Claim C1, amended: delimiter occurrences strictly inside a link's url are
protected from the stages that run while the line still matches the
RedNotebook link pattern — in particular the inner-underscore stage, which
runs first — so the line `[x ""http://a__b""]` (whose two inner underscores,
spans `(13,14)` and `(14,15)`, lie strictly inside the url span `(5,16)`)
comes out of the full pipeline as `[x](http://a__b)` with the underscores
unescaped.  After the link stage rewrites the link to Markdown form, later
delimiter stages no longer treat the url as protected. -/
theorem C1_amended_protection :
    innerUnderscores ("[x \"\"http://a__b\"\"]".data) = [(13, 14), (14, 15)] ∧
    (findLinks ("[x \"\"http://a__b\"\"]".data)).map LinkMatch.g2 = [(5, 16)] ∧
    pipeline_line ("[x \"\"http://a__b\"\"]".data) = ("[x](http://a__b)".data) :=
  ⟨by decide, by decide, by decide⟩

/-- Claim C2 (code bug): the canonical `format_lists` only resets the
blank-line counter in its non-blank non-list-item branch, so a list-item
line leaves the counter unchanged; feeding blank, `+ a`, blank, `+ b`
counts the two (non-consecutive) blank lines as a run of two, clears the
ordered-list counters, and renumbers the second item `1.` instead of the
claimed `2.`. -/
theorem C2_code_divergence :
    list_stage [("".data), ("+ a".data), ("".data), ("+ b".data)]
      = [("".data), ("1. a".data), ("".data), ("1. b".data)] := by decide

/-- Claim C4 (code bug): the canonical `format_headers` has no
`padding + level > 0` guard, so with `padding = -1` the line `=T=`
(where `padding + level = 0`) is not left unchanged: `'#' * 0` is empty and
the output is `" T"`. -/
theorem C4_code_divergence :
    format_headers (-1) ("=T=".data) = (" T".data) := by decide

/-- Claim C6: the list stage numbers `+ a`, `+ b`, `+ c` as `1.`, `2.`, `3.`,
and a deeper ordered item after a shallower one restarts at `1.` (the
shallower item deletes the counters of all deeper columns). -/
theorem C6_list_numbering :
    list_stage [("+ a".data), ("+ b".data), ("+ c".data)]
      = [("1. a".data), ("2. b".data), ("3. c".data)] ∧
    list_stage [("+ a".data), ("  + x".data), ("+ b".data), ("  + y".data)]
      = [("1. a".data), ("  1. x".data), ("2. b".data), ("  1. y".data)] :=
  ⟨by decide, by decide⟩

/-- Claim C7 (code bug): the list-item character class `[-|\+]` also matches
`|`, and the canonical branch `if line[i] == '-': pass else: rewrite`
sends a `|`-marked line down the ordered rewrite: `| b` is treated as an
ordered item (numbered and counted) instead of being left unchanged with
the counters cleared. -/
theorem C7_code_divergence :
    listItemIndex ("| b".data) = some (0, '|') ∧
    list_stage [("+ a".data), ("| b".data), ("+ c".data)]
      = [("1. a".data), ("2. b".data), ("3. c".data)] :=
  ⟨by decide, by decide⟩

/-- Claim C10: the intersection test sorts each tuple and compares with
`hi1 >= lo2 and hi2 >= lo1`, so two half-open spans that merely touch
(`(x, u)` against `(u, v)`, or `(v, y)` against `(u, v)`) always count as
intersecting; concretely, in `a `b`// c //` the `//` at span `(5,7)` starts
exactly at the end of the backtick span `(2,5)`, is therefore rejected by
`not_in_backticks`, and the single surviving `//` is unpaired, so the italic
stage leaves the line unchanged. -/
theorem C10_boundary_protection :
    (∀ x u v : ℕ, spans_intersect (x, u) (u, v) = true) ∧
    (∀ u v y : ℕ, spans_intersect (v, y) (u, v) = true) ∧
    not_in_backticks ("a `b`// c //".data) (5, 7) = false ∧
    format_italic_text ("a `b`// c //".data) = ("a `b`// c //".data) := by
  refine ⟨?_, ?_, by decide, by decide⟩
  · intro x u v
    simp only [spans_intersect, decide_eq_true_eq]
    omega
  · intro u v y
    simp only [spans_intersect, decide_eq_true_eq]
    omega

/-- Witness for C10: a concrete touching pair of spans is judged to
intersect. -/
theorem C10_witness : spans_intersect (2, 5) (5, 9) = true :=
  C10_boundary_protection.1 2 5 9

/-! ### Invariants of the two-character literal scanner -/

/-- Spans produced by `findLit2Aux` start at or after the scan position, are
well-ordered, and end within the scanned region. -/
theorem findLit2Aux_bounds (a b : Char) :
    ∀ (n : ℕ) (s : List Char), s.length ≤ n → ∀ (i : ℕ),
      ∀ m ∈ findLit2Aux a b s i, i ≤ m.1 ∧ m.1 ≤ m.2 ∧ m.2 ≤ i + s.length := by
  intro n
  induction n with
  | zero =>
    intro s hs i m hm
    rcases s with _ | ⟨x, _ | ⟨y, t⟩⟩
    · simp [findLit2Aux] at hm
    · simp [findLit2Aux] at hm
    · simp at hs
  | succ n ih =>
    intro s hs i m hm
    rcases s with _ | ⟨x, _ | ⟨y, t⟩⟩
    · simp [findLit2Aux] at hm
    · simp [findLit2Aux] at hm
    · simp only [findLit2Aux] at hm
      by_cases h : x = a ∧ y = b
      · rw [if_pos h] at hm
        rcases List.mem_cons.1 hm with rfl | hm'
        · refine ⟨le_refl i, by omega, ?_⟩
          simp only [List.length_cons]
          omega
        · have hb := ih t (by simp at hs; omega) (i + 2) m hm'
          simp only [List.length_cons]
          omega
      · rw [if_neg h] at hm
        have hb := ih (y :: t) (by simp at hs ⊢; omega) (i + 1) m hm
        simp only [List.length_cons] at hb ⊢
        omega

/-- The spans produced by `findLit2Aux` are pairwise ordered: each ends at
or before the start of the next (they do not overlap). -/
theorem findLit2Aux_pairwise (a b : Char) :
    ∀ (n : ℕ) (s : List Char), s.length ≤ n → ∀ (i : ℕ),
      List.Pairwise (fun p q : ℕ × ℕ => p.2 ≤ q.1) (findLit2Aux a b s i) := by
  intro n
  induction n with
  | zero =>
    intro s hs i
    rcases s with _ | ⟨x, _ | ⟨y, t⟩⟩
    · simp [findLit2Aux]
    · simp [findLit2Aux]
    · simp at hs
  | succ n ih =>
    intro s hs i
    rcases s with _ | ⟨x, _ | ⟨y, t⟩⟩
    · simp [findLit2Aux]
    · simp [findLit2Aux]
    · simp only [findLit2Aux]
      by_cases h : x = a ∧ y = b
      · rw [if_pos h]
        refine List.pairwise_cons.2 ⟨?_, ih t (by simp at hs; omega) (i + 2)⟩
        intro q hq
        exact (findLit2Aux_bounds a b t.length t le_rfl (i + 2) q hq).1
      · rw [if_neg h]
        exact ih (y :: t) (by simp at hs ⊢; omega) (i + 1)

/-- `zip` of an iterator with itself halves the length (integer division). -/
theorem pairUp_length {α : Type} (l : List α) : (pairUp l).length = l.length / 2 := by
  have H : ∀ (n : ℕ) (l : List α), l.length ≤ n → (pairUp l).length = l.length / 2 := by
    intro n
    induction n with
    | zero =>
      intro l hl
      rcases l with _ | ⟨x, _ | ⟨y, t⟩⟩
      · simp [pairUp]
      · simp [pairUp]
      · simp at hl
    | succ n ih =>
      intro l hl
      rcases l with _ | ⟨x, _ | ⟨y, t⟩⟩
      · simp [pairUp]
      · simp [pairUp]
      · have ht : t.length ≤ n := by simp at hl; omega
        simp only [pairUp, List.length_cons, ih t ht]
        omega
  exact H l.length l le_rfl

/-- The reverse-order substitution loop of `_sub_balanced_delims` agrees with
the forward reading `balanced_pairs_spec`: on a list of ordered,
non-overlapping, in-bounds match spans that all start at or after `pos`, the
loop leaves the prefix before `pos` untouched and rewrites the rest as the
forward walk does. -/
theorem foldl_applyPairRev_spec (sub s : List Char) :
    ∀ (n : ℕ) (ms : List (ℕ × ℕ)), ms.length ≤ n → ∀ (pos : ℕ),
      List.Pairwise (fun p q : ℕ × ℕ => p.2 ≤ q.1) ms →
      (∀ m ∈ ms, m.1 ≤ m.2 ∧ m.2 ≤ s.length) →
      (∀ m ∈ ms, pos ≤ m.1) →
      (((pairUp ms).reverse.foldl (applyPairRev sub) s).take pos = s.take pos ∧
       ((pairUp ms).reverse.foldl (applyPairRev sub) s).drop pos
         = balanced_pairs_spec sub s ms pos) := by
  intro n
  induction n with
  | zero =>
    intro ms hms pos _ _ _
    rcases ms with _ | ⟨m1, _ | ⟨m2, rest⟩⟩
    · exact ⟨by simp [pairUp], by simp [pairUp, balanced_pairs_spec]⟩
    · exact ⟨by simp [pairUp], by simp [pairUp, balanced_pairs_spec]⟩
    · simp at hms
  | succ n ih =>
    intro ms hms pos hpw hbd hpos
    rcases ms with _ | ⟨m1, _ | ⟨m2, rest⟩⟩
    · exact ⟨by simp [pairUp], by simp [pairUp, balanced_pairs_spec]⟩
    · exact ⟨by simp [pairUp], by simp [pairUp, balanced_pairs_spec]⟩
    · have hlen : rest.length ≤ n := by simp at hms; omega
      have hpw1 := List.pairwise_cons.1 hpw
      have hpw2 := List.pairwise_cons.1 hpw1.2
      have h12 : m1.2 ≤ m2.1 := hpw1.1 m2 (List.mem_cons_self m2 rest)
      have hb1 : m1.1 ≤ m1.2 := (hbd m1 (by simp)).1
      have hb2 : m2.1 ≤ m2.2 := (hbd m2 (by simp)).1
      have hlen2 : m2.2 ≤ s.length := (hbd m2 (by simp)).2
      have hpos1 : pos ≤ m1.1 := hpos m1 (by simp)
      obtain ⟨ht1, ht2⟩ :=
        ih rest hlen m2.2 hpw2.2 (fun m hm => hbd m (by simp [hm])) hpw2.1
      have hfold : (pairUp (m1 :: m2 :: rest)).reverse.foldl (applyPairRev sub) s
          = applyPairRev sub ((pairUp rest).reverse.foldl (applyPairRev sub) s) (m1, m2) := by
        simp [pairUp, List.foldl_append]
      set t := (pairUp rest).reverse.foldl (applyPairRev sub) s with hT
      have htake : ∀ k, k ≤ m2.2 → t.take k = s.take k := by
        intro k hk
        have e1 : t.take k = t.take (min k m2.2) := by rw [min_eq_left hk]
        rw [e1, ← List.take_take, ht1, List.take_take, min_eq_left hk]
      have hLHS : applyPairRev sub t (m1, m2)
          = s.take m1.1 ++ sub ++ pyExtract s m1.2 m2.1 ++ sub
              ++ balanced_pairs_spec sub s rest m2.2 := by
        show t.take m1.1 ++ sub ++ (t.take m2.1).drop m1.2 ++ sub ++ t.drop m2.2
            = s.take m1.1 ++ sub ++ (s.take m2.1).drop m1.2 ++ sub
                ++ balanced_pairs_spec sub s rest m2.2
        rw [htake m1.1 (by omega), htake m2.1 (by omega), ht2]
      have hlt : pos ≤ (s.take m1.1).length := by
        simp only [List.length_take]
        omega
      rw [hfold, hLHS]
      constructor
      · rw [List.append_assoc, List.append_assoc, List.append_assoc,
          List.take_append_of_le_length hlt, List.take_take, min_eq_left hpos1]
      · rw [List.append_assoc, List.append_assoc, List.append_assoc,
          List.drop_append_of_le_length hlt]
        show pyExtract s pos m1.1 ++ (sub ++ (pyExtract s m1.2 m2.1 ++ (sub
            ++ balanced_pairs_spec sub s rest m2.2)))
          = balanced_pairs_spec sub s (m1 :: m2 :: rest) pos
        simp [balanced_pairs_spec]

/-- Claim C5: for every line, `_sub_balanced_delims` pairs the surviving
matches consecutively (1st with 2nd, 3rd with 4th, ...), replaces each pair
keeping the interior verbatim, and leaves an unpaired trailing match (and
everything after it) untouched — its reverse-order rewriting equals the
forward specification `balanced_sub_spec` on every input; the number of
substituted pairs is `⌊survivors / 2⌋`; and concretely the italic stage
turns `a // b // c //` (three occurrences) into `a _ b _ c //`. -/
theorem C5_balanced_pairing :
    (∀ (a b : Char) (sub : List Char) (preds : List (List Char → ℕ × ℕ → Bool))
        (s : List Char),
      sub_balanced_delims a b sub preds s = balanced_sub_spec a b sub preds s) ∧
    (∀ (a b : Char) (preds : List (List Char → ℕ × ℕ → Bool)) (s : List Char),
      (pairUp (filter_matches preds s (findLit2 a b s))).length
        = (filter_matches preds s (findLit2 a b s)).length / 2) ∧
    format_italic_text ("a // b // c //".data) = ("a _ b _ c //".data) := by
  refine ⟨?_, fun a b preds s => pairUp_length _, by decide⟩
  intro a b sub preds s
  have hsub : List.Sublist (filter_matches preds s (findLit2 a b s))
      (findLit2 a b s) :=
    List.filter_sublist _
  have hbd : ∀ m ∈ filter_matches preds s (findLit2 a b s),
      m.1 ≤ m.2 ∧ m.2 ≤ s.length := by
    intro m hm
    have hb := findLit2Aux_bounds a b s.length s le_rfl 0 m
      (List.mem_of_mem_filter hm)
    omega
  have hpw : List.Pairwise (fun p q : ℕ × ℕ => p.2 ≤ q.1)
      (filter_matches preds s (findLit2 a b s)) :=
    (findLit2Aux_pairwise a b s.length s le_rfl 0).sublist hsub
  have h := (foldl_applyPairRev_spec sub s
    (filter_matches preds s (findLit2 a b s)).length _ le_rfl 0 hpw hbd
    (fun m _ => Nat.zero_le _)).2
  rw [List.drop_zero] at h
  exact h

/-- Witness for C5: the reverse-order substituter and the forward
specification agree on the claim's example line. -/
theorem C5_witness :
    sub_balanced_delims '/' '/' (['_']) defaultPreds ("a // b // c //".data)
      = balanced_sub_spec '/' '/' (['_']) defaultPreds ("a // b // c //".data) :=
  C5_balanced_pairing.1 '/' '/' (['_']) defaultPreds ("a // b // c //".data)

/-! ### Header-stage lemmas -/

/-- Taking as many characters as the `takeWhile` prefix yields that prefix. -/
theorem take_of_takeWhile (p : Char → Bool) (s : List Char) :
    s.take ((s.takeWhile p).length) = s.takeWhile p := by
  have h := @List.take_left' Char (s.takeWhile p) (s.dropWhile p)
    ((s.takeWhile p).length) rfl
  rwa [List.takeWhile_append_dropWhile] at h

/-- The reversed `takeWhile` of the reversed list is the maximal matching
suffix: dropping everything before it recovers it. -/
theorem rev_takeWhile_drop (p : Char → Bool) (s : List Char) :
    s.drop (s.length - (s.reverse.takeWhile p).length)
      = (s.reverse.takeWhile p).reverse := by
  have h1 : s = (s.reverse.dropWhile p).reverse ++ (s.reverse.takeWhile p).reverse := by
    calc s = s.reverse.reverse := (List.reverse_reverse s).symm
    _ = (s.reverse.takeWhile p ++ s.reverse.dropWhile p).reverse := by
          rw [List.takeWhile_append_dropWhile]
    _ = (s.reverse.dropWhile p).reverse ++ (s.reverse.takeWhile p).reverse := by
          rw [List.reverse_append]
  have h2 := congrArg List.length (List.takeWhile_append_dropWhile p s.reverse)
  simp only [List.length_append, List.length_reverse] at h2
  have hl : ((s.reverse.dropWhile p).reverse).length
      = s.length - (s.reverse.takeWhile p).length := by
    simp only [List.length_reverse]
    omega
  have h3 := @List.drop_left' Char ((s.reverse.dropWhile p).reverse)
    ((s.reverse.takeWhile p).reverse) (s.length - (s.reverse.takeWhile p).length) hl
  rw [← h1] at h3
  exact h3

/-- Unpacking of the header guard into its four conditions. -/
theorem header_guard_iff (s : List Char) :
    header_guard s = true ↔
      s.takeWhile (· == '=') ≠ [] ∧ s.takeWhile (· == '=') ≠ s ∧
      (s.reverse.takeWhile (· == '=')).reverse ≠ [] ∧
      (s.reverse.takeWhile (· == '=')).reverse = s.takeWhile (· == '=') := by
  simp only [header_guard, Bool.and_eq_true, Bool.not_eq_true',
    List.isEmpty_eq_false, decide_eq_true_eq]
  tauto

/-- When the guard fails, `format_headers` is the identity. -/
theorem format_headers_of_guard_false (padding : ℤ) (s : List Char)
    (hg : header_guard s = false) :
    format_headers padding s = s := by
  simp only [format_headers]
  split
  next => rfl
  next hc1 =>
    split
    next => rfl
    next hc2 =>
      have hT : header_guard s = true := by
        rw [header_guard_iff]
        simp only [Bool.or_eq_true, List.isEmpty_iff, decide_eq_true_eq,
          not_or] at hc1 hc2
        refine ⟨hc1.1, hc1.2, hc2.1, ?_⟩
        tauto
      rw [hT] at hg
      exact Bool.noConfusion hg

/-- When the guard holds, `format_headers` produces the hash run, a space,
and the left-stripped interior. -/
theorem format_headers_eq_of_guard (padding : ℤ) (s : List Char)
    (hg : header_guard s = true) :
    format_headers padding s
      = List.replicate (padding + ((s.takeWhile (· == '=')).length : ℤ)).toNat '#' ++
          ' ' :: pyLstrip (header_interior s) := by
  obtain ⟨h1, h2, _, h3⟩ := (header_guard_iff s).1 hg
  simp only [format_headers, header_interior, pyExtract]
  rw [if_neg, if_neg]
  · simp only [Bool.or_eq_true, List.isEmpty_iff, decide_eq_true_eq, not_or]
    constructor
    · rw [h3]; exact h1
    · intro hne
      exact hne h3
  · simp only [Bool.or_eq_true, List.isEmpty_iff, decide_eq_true_eq, not_or]
    exact ⟨h1, h2⟩

/-- A guarded header line has room for both `=`-runs: twice the level is at
most the line length (otherwise the two runs would overlap and the whole
line would consist of `=`, contradicting the guard). -/
theorem header_two_level_le (s : List Char) (hg : header_guard s = true) :
    2 * (s.takeWhile (· == '=')).length ≤ s.length := by
  obtain ⟨h1, h2, _, h3⟩ := (header_guard_iff s).1 hg
  by_contra hcon
  push_neg at hcon
  have hlev : (s.takeWhile (· == '=')).length ≤ s.length :=
    (List.takeWhile_sublist _).length_le
  have htrlen : (s.reverse.takeWhile (· == '=')).length
      = (s.takeWhile (· == '=')).length := by
    rw [← List.length_reverse (s.reverse.takeWhile (· == '=')), h3]
  have hdropA : s.drop (s.length - (s.takeWhile (· == '=')).length)
      = s.takeWhile (· == '=') := by
    have hd := rev_takeWhile_drop (· == '=') s
    rw [htrlen] at hd
    rw [hd, h3]
  have harith : (s.length - (s.takeWhile (· == '=')).length)
      + ((s.takeWhile (· == '=')).length
          - (s.length - (s.takeWhile (· == '=')).length))
      = (s.takeWhile (· == '=')).length := by omega
  have hdd := List.drop_drop
    ((s.takeWhile (· == '=')).length - (s.length - (s.takeWhile (· == '=')).length))
    (s.length - (s.takeWhile (· == '=')).length) s
  rw [harith, hdropA] at hdd
  have hallmem : ∀ c ∈ s, (c == '=') = true := by
    intro c hc
    rw [← List.take_append_drop ((s.takeWhile (· == '=')).length) s] at hc
    rcases List.mem_append.1 hc with h | h
    · rw [take_of_takeWhile] at h
      have hx := List.mem_takeWhile_imp h
      exact hx
    · rw [← hdd] at h
      have hy := List.mem_of_mem_drop h
      have hx := List.mem_takeWhile_imp hy
      exact hx
  exact h2 (List.takeWhile_eq_self_iff.2 hallmem)

/-- Claim C3, counterexample: the header stage transforms `=a=b=`
(balanced runs of one `=`, an extra `=` in the interior) into `# a=b`,
where `input.count('=') = 3` but `(output.count('#') - 0) * 2 = 2`. -/
theorem C3_counterexample :
    format_headers 0 ("=a=b=".data) = ("# a=b".data) ∧
    ("=a=b=".data).count '=' = 3 ∧
    ¬ (((("=a=b=".data).count '=' : ℕ) : ℤ)
        = (((format_headers 0 ("=a=b=".data)).count '#' : ℤ) - 0) * 2) :=
  ⟨by decide, by decide, by decide⟩

/-- Claim C3, amended: whenever the header stage transforms a line whose
interior (the text between the two `=`-runs) contains no `=` and no `#`,
and the padding is non-negative, the equation
`input.count('=') = (output.count('#') - padding) * 2` holds; with padding 0,
`=Title=` becomes `# Title`, `==Sub==` becomes `## Sub`, and `=unbalanced`
(no trailing `=`) is left unchanged. -/
theorem C3_amended_header_count :
    (∀ (s : List Char) (padding : ℤ), 0 ≤ padding → header_guard s = true →
      (header_interior s).count '=' = 0 → (header_interior s).count '#' = 0 →
      (((s.count '=' : ℕ) : ℤ)
        = (((format_headers padding s).count '#' : ℤ) - padding) * 2)) ∧
    format_headers 0 ("=Title=".data) = ("# Title".data) ∧
    format_headers 0 ("==Sub==".data) = ("## Sub".data) ∧
    format_headers 0 ("=unbalanced".data) = ("=unbalanced".data) := by
  refine ⟨?_, by decide, by decide, by decide⟩
  intro s padding hp hg h1 h2
  obtain ⟨hne, _, _, htr⟩ := (header_guard_iff s).1 hg
  have h2l := header_two_level_le s hg
  have hlpos : 0 < (s.takeWhile (· == '=')).length := by
    cases hq : s.takeWhile (· == '=') with
    | nil => exact absurd hq hne
    | cons c t => simp [hq]
  have htw := take_of_takeWhile (· == '=') s
  have htrlen : (s.reverse.takeWhile (· == '=')).length
      = (s.takeWhile (· == '=')).length := by
    rw [← List.length_reverse (s.reverse.takeWhile (· == '=')), htr]
  have hdropA : s.drop (s.length - (s.takeWhile (· == '=')).length)
      = s.takeWhile (· == '=') := by
    have hd := rev_takeWhile_drop (· == '=') s
    rw [htrlen] at hd
    rw [hd, htr]
  have hfront : s.take (s.length - (s.takeWhile (· == '=')).length)
      = s.takeWhile (· == '=') ++ header_interior s := by
    have e1 : (s.take (s.length - (s.takeWhile (· == '=')).length)).take
        ((s.takeWhile (· == '=')).length)
          = s.take ((s.takeWhile (· == '=')).length) := by
      rw [List.take_take]
      congr 1
      omega
    have e2 : (s.take (s.length - (s.takeWhile (· == '=')).length)).drop
        ((s.takeWhile (· == '=')).length) = header_interior s := rfl
    conv_lhs => rw [← List.take_append_drop ((s.takeWhile (· == '=')).length)
      (s.take (s.length - (s.takeWhile (· == '=')).length))]
    rw [e1, e2, htw]
  have hleadcount : (s.takeWhile (· == '=')).count '='
      = (s.takeWhile (· == '=')).length := by
    apply List.count_eq_length.2
    intro c hc
    have hx := List.mem_takeWhile_imp hc
    exact (eq_of_beq hx).symm
  have hcounteq : s.count '=' = 2 * (s.takeWhile (· == '=')).length := by
    conv_lhs => rw [← List.take_append_drop
      (s.length - (s.takeWhile (· == '=')).length) s]
    rw [List.count_append, hdropA, hfront, List.count_append, hleadcount, h1]
    omega
  have hout := format_headers_eq_of_guard padding s hg
  have hsubl : List.Sublist (pyLstrip (header_interior s)) (header_interior s) :=
    List.dropWhile_sublist _
  have hlst : (pyLstrip (header_interior s)).count '#' = 0 := by
    have := hsubl.count_le '#'
    omega
  have hcount2 : (format_headers padding s).count '#'
      = (padding + ((s.takeWhile (· == '=')).length : ℤ)).toNat := by
    rw [hout, List.count_append, List.count_replicate_self, List.count_cons, hlst]
    simp
  rw [hcounteq, hcount2]
  have htn : (((padding + ((s.takeWhile (· == '=')).length : ℤ)).toNat : ℕ) : ℤ)
      = padding + ((s.takeWhile (· == '=')).length : ℤ) := by
    apply Int.toNat_of_nonneg
    have hc : (0:ℤ) < ((s.takeWhile (· == '=')).length : ℤ) := by exact_mod_cast hlpos
    omega
  rw [htn]
  push_cast
  ring

/-- Witness for C3: the amended equation at `=Title=` with padding 0. -/
theorem C3_witness :
    ((((("=Title=".data : List Char)).count '=' : ℕ) : ℤ)
      = (((format_headers 0 ("=Title=".data)).count '#' : ℤ) - 0) * 2) :=
  C3_amended_header_count.1 ("=Title=".data) 0 (by decide) (by decide)
    (by decide) (by decide)

/-! ### Stage-identity lemmas and idempotence -/

/-- With no delimiter matches at all, the balanced substituter is the
identity. -/
theorem sub_balanced_delims_of_no_matches (a b : Char) (sub : List Char)
    (preds : List (List Char → ℕ × ℕ → Bool)) (s : List Char)
    (h : findLit2 a b s = []) :
    sub_balanced_delims a b sub preds s = s := by
  simp [sub_balanced_delims, h, filter_matches, pairUp]

/-- With no surviving inner-underscore match, the escaper is the identity. -/
theorem format_inner_underscores_of_empty (l : List Char)
    (h : filter_matches defaultPreds l (innerUnderscores l) = []) :
    format_inner_underscores l = l := by
  simp [format_inner_underscores, h]

/-- A line that is not a list item, or whose marker is `-`, passes through
the list stage unchanged (whatever the current state). -/
theorem format_lists_snd_of_stable (st : ListState) (l : List Char)
    (h : (match listItemIndex l with
          | some (_, m) => m == '-'
          | none => true) = true) :
    (format_lists st l).2 = l := by
  rcases hli : listItemIndex l with _ | ⟨i, m⟩
  · simp only [format_lists, hli]
    split
    · rfl
    · rfl
  · rw [hli] at h
    have hm : m = '-' := by simpa using h
    simp [format_lists, hli, hm]

/-- On a token-free line every stage, and hence the whole pipeline, is the
identity. -/
theorem pipeline_line_of_md_stable (l : List Char) (h : md_stable l = true) :
    pipeline_line l = l := by
  simp only [md_stable, Bool.and_eq_true, List.isEmpty_iff, Bool.not_eq_true'] at h
  obtain ⟨⟨⟨⟨⟨⟨⟨h1, h2⟩, h3⟩, h4⟩, h5⟩, h6⟩, h7⟩, h8⟩ := h
  have e1 : format_inner_underscores l = l := format_inner_underscores_of_empty l h1
  have e2 : format_links l = l := by simp [format_links, h2, subLinksVia]
  have e3 : format_images l = l := by simp [format_images, h3, subImagesVia]
  have e4 : format_headers 0 l = l := format_headers_of_guard_false 0 l h4
  have e5 : format_code_blocks l = l :=
    sub_balanced_delims_of_no_matches backquote backquote ([backquote]) [not_in_link] l h5
  have e6 : format_italic_text l = l :=
    sub_balanced_delims_of_no_matches '/' '/' (['_']) defaultPreds l h6
  have e7 : format_strikethrough_text l = l := by
    by_cases hr : l = List.replicate l.length '-'
    · unfold format_strikethrough_text
      rw [if_pos hr]
    · unfold format_strikethrough_text
      rw [if_neg hr]
      exact sub_balanced_delims_of_no_matches '-' '-' (['~']) defaultPreds l h7
  have e8 : (format_lists ⟨[], 0⟩ l).2 = l := format_lists_snd_of_stable _ l h8
  show (format_lists ⟨[], 0⟩ (format_strikethrough_text (format_italic_text
    (format_code_blocks (format_headers 0 (format_images (format_links
      (format_inner_underscores l)))))))).2 = l
  rw [e1, e2, e3, e4, e5, e6, e7]
  exact e8

/-- Claim C8: on a line with no residual RedNotebook tokens (`md_stable`),
the full pipeline is the identity, so running it twice equals running it
once; in particular an already-escaped underscore `a\_b` is not escaped
again (the escaping backslash is not a word character, so `(?<=\w)_(?=\w)`
no longer matches) and an already-hashed header `# Title` gains no further
hashes (the header guard requires a leading `=`). -/
theorem C8_idempotence :
    (∀ l : List Char, md_stable l = true →
      pipeline_line (pipeline_line l) = pipeline_line l) ∧
    pipeline_line (pipeline_line ("a\\_b".data)) = pipeline_line ("a\\_b".data) ∧
    pipeline_line (pipeline_line ("# Title".data)) = pipeline_line ("# Title".data) := by
  refine ⟨?_, by decide, by decide⟩
  intro l h
  have hfix := pipeline_line_of_md_stable l h
  rw [hfix]
  exact hfix

/-- Witness for C8: idempotence instantiated at a plain-text line. -/
theorem C8_witness :
    pipeline_line (pipeline_line ("plain text".data)) = pipeline_line ("plain text".data) :=
  C8_idempotence.1 ("plain text".data) (by decide)

/-- Claim C9: the pipeline is total — it maps every list of input lines
(including empty lines) to the same number of output lines — and malformed
or partial markup passes through unmodified rather than failing: an
unbalanced `//`, a header with mismatched runs (`==x=`), and a bare list
marker with no trailing content (`+`) all come out unchanged. -/
theorem C9_totality :
    (∀ (lines : List (List Char)),
      (format_rednotebook_as_markdown 0 lines).length = lines.length) ∧
    format_rednotebook_as_markdown 0 [[]] = [[]] ∧
    pipeline_line ("a // b".data) = ("a // b".data) ∧
    pipeline_line ("==x=".data) = ("==x=".data) ∧
    pipeline_line ("+".data) = ("+".data) := by
  refine ⟨?_, by decide, by decide, by decide, by decide⟩
  intro lines
  suffices H : ∀ (st : ListState) (ls : List (List Char)),
      (run_pipeline 0 st ls).length = ls.length from H _ _
  intro st ls
  induction ls generalizing st with
  | nil => rfl
  | cons l t ih => simp [run_pipeline, ih]

/-- Witness for C9: length preservation at a concrete input. -/
theorem C9_witness :
    (format_rednotebook_as_markdown 0 [("hello".data)]).length
      = [("hello".data)].length :=
  C9_totality.1 [("hello".data)]

end Rn2md
